import Mathlib

/-!
Verification of the diff-collection and budget-allocation engine of the
nullcommits repository (`src/git.js`).  Text is modelled as `List Char`
(one entry per character, matching JavaScript's character-indexed strings);
the external `git` process is modelled as an environment of fallible
queries (`GitEnv`).  Every definition follows the corresponding place in
`src/git.js`; line references are given in the doc comments.
-/

/-- JavaScript strings are modelled as lists of characters. -/
abbrev Str := List Char

/-- Convert a Lean string literal to the character-list model. -/
def chars (s : String) : Str := s.toList

/-- Media file extensions (the `MEDIA_EXTENSIONS` set, `src/git.js` lines 8-15). -/
def MEDIA_EXTENSIONS : List Str :=
  [chars ".png", chars ".gif", chars ".jpg", chars ".jpeg", chars ".webp",
   chars ".svg", chars ".ico", chars ".bmp", chars ".tiff", chars ".tif",
   chars ".avif",
   chars ".mp4", chars ".mov", chars ".avi", chars ".mkv", chars ".webm",
   chars ".wmv", chars ".flv", chars ".m4v",
   chars ".mp3", chars ".wav", chars ".ogg", chars ".flac", chars ".aac",
   chars ".m4a", chars ".wma"]

/-- Default diff budget (`DEFAULT_DIFF_BUDGET`, `src/git.js` line 20). -/
def DEFAULT_DIFF_BUDGET : Nat := 128000

/-- Index of the last occurrence of a character in a list, if any. -/
def lastIdxOf (c : Char) : List Char → Option Nat
  | [] => none
  | x :: xs =>
    match lastIdxOf c xs with
    | some i => some (i + 1)
    | none => if x = c then some 0 else none

/-- The part of a path after the last slash (the basename). -/
def lastComponent (p : Str) : Str :=
  match lastIdxOf '/' p with
  | some i => p.drop (i + 1)
  | none => p

/-- Modelled from Node's `path.extname` as used in `src/git.js` line 28:
the suffix of the basename starting at its last dot, empty when the
basename has no dot or the dot is its first character. -/
def extname (p : Str) : Str :=
  let base := lastComponent p
  match lastIdxOf '.' base with
  | some i => if i = 0 then [] else base.drop i
  | none => []

/-- Lower-case every character (JavaScript `toLowerCase` on extensions). -/
def lowerStr (s : Str) : Str := s.map Char.toLower

/-- The media classifier `isMediaFile` (`src/git.js` lines 27-30). -/
def isMediaFile (p : Str) : Bool :=
  MEDIA_EXTENSIONS.contains (lowerStr (extname p))

/-- JavaScript `split('\n')`: cut a string at every newline, keeping
empty pieces (so the result always has one more piece than newlines). -/
def splitLines : Str → List Str
  | [] => [[]]
  | c :: rest =>
    let r := splitLines rest
    if c = '\n' then [] :: r
    else
      match r with
      | [] => [[c]]
      | h :: t => (c :: h) :: t

/-- JavaScript `trim()`: strip whitespace from both ends. -/
def trimStr (s : Str) : Str :=
  ((s.dropWhile Char.isWhitespace).reverse.dropWhile Char.isWhitespace).reverse

/-- The post-processing `output.trim().split('\n').filter(f => f.length > 0)`
applied to the file-list query output (`src/git.js` lines 42 and 50). -/
def parseFileList (out : Str) : List Str :=
  (splitLines (trimStr out)).filter (fun f => 0 < f.length)

/-- Outcomes of the external version-control queries: each `git` call
either succeeds with its text output or fails (`execSync` throwing). -/
structure GitEnv where
  stagedList : Except Unit Str
  headList : Except Unit Str
  stagedDiff : Str → Except Unit Str
  headDiff : Str → Except Unit Str

/-- `getStagedFileList` (`src/git.js` lines 36-55): staged-list query,
falling back to the diff-against-HEAD query, falling back to `[]`. -/
def getStagedFileList (env : GitEnv) : List Str :=
  match env.stagedList with
  | Except.ok out => parseFileList out
  | Except.error _ =>
    match env.headList with
    | Except.ok out => parseFileList out
    | Except.error _ => []

/-- `getFileDiff` (`src/git.js` lines 62-78): staged diff of one path,
falling back to the diff against HEAD, falling back to empty text. -/
def getFileDiff (env : GitEnv) (p : Str) : Str :=
  match env.stagedDiff p with
  | Except.ok d => d
  | Except.error _ =>
    match env.headDiff p with
    | Except.ok d => d
    | Except.error _ => []

/-- `countDiffLines` (`src/git.js` lines 85-99): scan the lines of a diff,
counting a line as added when it starts with `+` but not `+++`, else as
removed when it starts with `-` but not `---`. -/
def countDiffLines (diff : Str) : Nat × Nat :=
  (splitLines diff).foldl
    (fun acc line =>
      if ['+'].isPrefixOf line && !(['+', '+', '+'].isPrefixOf line) then
        (acc.1 + 1, acc.2)
      else if ['-'].isPrefixOf line && !(['-', '-', '-'].isPrefixOf line) then
        (acc.1, acc.2 + 1)
      else acc)
    (0, 0)

/-- The result record of `getSmartStagedDiff` (`src/git.js` line 104). -/
structure DiffResult where
  diff : Str
  totalLinesChanged : Nat
  fileCount : Nat
deriving DecidableEq

/-- Pass 1 of the allocator (`src/git.js` lines 152-164): fold over the
code-file diff lengths, accumulating the unused budget of files that fit
within the per-file baseline and collecting the overflowing lengths. -/
def passOne (bpf : Nat) (lens : List Nat) : Nat × List Nat :=
  lens.foldl
    (fun acc l =>
      if l ≤ bpf then (acc.1 + (bpf - l), acc.2)
      else (acc.1, acc.2 ++ [l]))
    (0, [])

/-- Pass 2 of the allocator (`src/git.js` lines 166-176): the extra budget
granted to every overflowing file, `floor(unused / overflowCount)` when
there is unused budget and at least one overflowing file, else `0` (in
which case each overflowing file's allocation is exactly the baseline). -/
def extraOf (bpf : Nat) (lens : List Nat) : Nat :=
  if 0 < (passOne bpf lens).1 ∧ 0 < (passOne bpf lens).2.length then
    (passOne bpf lens).1 / (passOne bpf lens).2.length
  else 0

/-- The truncation marker line (`src/git.js` lines 196 and 201); the
omitted count is a JavaScript number and may be negative, hence `Int`. -/
def truncAnnot (name : Str) (omitted : Int) : Str :=
  '\n' :: (chars "... [" ++ name ++ chars " diff truncated, "
    ++ chars (toString omitted) ++ chars " chars omitted]")

/-- Rendering of one code file (`src/git.js` lines 191-205): an
overflowing file whose (always-set) allocation is nonzero is cut to the
allocation and annotated; with a zero (falsy) allocation it is cut to the
baseline; a file that fits is emitted in full. -/
def renderFile (bpf extra : Nat) (fd : Str × Str) : List Str :=
  if bpf < fd.2.length ∧ bpf + extra ≠ 0 then
    [fd.2.take (bpf + extra),
     truncAnnot fd.1 ((fd.2.length : Int) - ((bpf + extra : Nat) : Int))]
  else if bpf < fd.2.length then
    [fd.2.take bpf,
     truncAnnot fd.1 ((fd.2.length : Int) - (bpf : Int))]
  else
    [fd.2]

/-- The media-file marker line (`src/git.js` line 185). -/
def mediaMark (f : Str) : Str := chars "[Media] " ++ f

/-- The media-only listing line (`src/git.js` line 145). -/
def mediaOnlyMark (f : Str) : Str := chars "[Media file] " ++ f

/-- The media block header (`src/git.js` line 183). -/
def mediaHeaderLine : Str :=
  chars "--- Media files (binary, showing names only) ---"

/-- `diffParts.join('\n')` (`src/git.js` line 208). -/
def joinParts (parts : List Str) : Str := List.intercalate ['\n'] parts

/-- The staged files classified as media, in staged order
(`src/git.js` lines 114-123). -/
def mediaFilesOf (files : List Str) : List Str :=
  files.filter (fun f => isMediaFile f)

/-- The staged files classified as code, in staged order
(`src/git.js` lines 114-123). -/
def codeFilesOf (files : List Str) : List Str :=
  files.filter (fun f => !isMediaFile f)

/-- Baseline budget per code file, `floor(budget / codeFileCount)`
(`src/git.js` line 149). -/
def bpfOf (files : List Str) (budget : Nat) : Nat :=
  budget / (codeFilesOf files).length

/-- The diff lengths of the code files, in staged order
(`src/git.js` lines 126-139). -/
def lensOf (files : List Str) (diffOf : Str → Str) : List Nat :=
  (codeFilesOf files).map (fun f => (diffOf f).length)

/-- The extra budget of this run, computed from both allocator passes. -/
def extraFor (files : List Str) (diffOf : Str → Str) (budget : Nat) : Nat :=
  extraOf (bpfOf files budget) (lensOf files diffOf)

/-- The media block pushed onto `diffParts` (`src/git.js` lines 182-188). -/
def buildMediaParts (mediaFiles : List Str) : List Str :=
  if 0 < mediaFiles.length then
    (mediaFiles.foldl (fun acc f => acc ++ [mediaMark f]) [mediaHeaderLine]) ++ [[]]
  else []

/-- The code-file render loop pushing onto `diffParts`
(`src/git.js` lines 191-205). -/
def buildCodeParts (bpf extra : Nat) (fileDiffs : List (Str × Str))
    (init : List Str) : List Str :=
  fileDiffs.foldl (fun acc fd => acc ++ renderFile bpf extra fd) init

/-- The full `diffParts` list of a run (`src/git.js` lines 178-205). -/
def smartDiffParts (files : List Str) (diffOf : Str → Str) (budget : Nat) :
    List Str :=
  buildCodeParts (bpfOf files budget) (extraFor files diffOf budget)
    ((codeFilesOf files).map (fun f => (f, diffOf f)))
    (buildMediaParts (mediaFilesOf files))

/-- The body part (possibly truncated diff text) emitted for one code
file of a run: the first of the parts `renderFile` pushes for it. -/
def renderedBody (files : List Str) (diffOf : Str → Str) (budget : Nat)
    (f : Str) : Str :=
  (renderFile (bpfOf files budget) (extraFor files diffOf budget)
    (f, diffOf f)).headD []

/-- `getSmartStagedDiff` (`src/git.js` lines 106-212) with the staged file
list and the per-file diff text as explicit inputs. -/
def smartStagedDiff (files : List Str) (diffOf : Str → Str) (budget : Nat) :
    DiffResult :=
  if files.length = 0 then ⟨[], 0, 0⟩
  else
    let codeFiles := codeFilesOf files
    let fileDiffs := codeFiles.map (fun f => (f, diffOf f))
    let totalLinesChanged := fileDiffs.foldl
      (fun acc fd => acc + ((countDiffLines fd.2).1 + (countDiffLines fd.2).2)) 0
    if codeFiles.length = 0 then
      ⟨joinParts ((mediaFilesOf files).map mediaOnlyMark), 0, files.length⟩
    else
      ⟨joinParts (smartDiffParts files diffOf budget), totalLinesChanged,
       files.length⟩

/-- `getSmartStagedDiff` as called in the program: the staged file list
and each file's diff come from the version-control queries. -/
def getSmartStagedDiff (env : GitEnv) (budget : Nat) : DiffResult :=
  smartStagedDiff (getStagedFileList env) (getFileDiff env) budget

/-! ### Structural lemmas about the folds used by the embedding -/

/-- A fold that appends one element per item is the initial list followed
by the mapped list. -/
theorem foldl_push_map {α β : Type} (g : α → β) :
    ∀ (xs : List α) (init : List β),
      xs.foldl (fun acc x => acc ++ [g x]) init = init ++ xs.map g
  | [], init => by simp
  | x :: xs, init => by
    simp only [List.foldl_cons, List.map_cons]
    rw [foldl_push_map g xs (init ++ [g x])]
    simp

/-- A fold that appends a block per item is the initial list followed by
the concatenation of the blocks. -/
theorem foldl_append_flat {α β : Type} (g : α → List β) :
    ∀ (xs : List α) (init : List β),
      xs.foldl (fun acc x => acc ++ g x) init = init ++ (xs.map g).flatten
  | [], init => by simp
  | x :: xs, init => by
    simp only [List.foldl_cons, List.map_cons, List.flatten_cons]
    rw [foldl_append_flat g xs (init ++ g x)]
    simp

/-- A fold that adds one summand per item is the initial value plus the
sum of the mapped list. -/
theorem foldl_add_map {α : Type} (g : α → Nat) :
    ∀ (xs : List α) (a : Nat),
      xs.foldl (fun acc x => acc + g x) a = a + (xs.map g).sum
  | [], a => by simp
  | x :: xs, a => by
    simp only [List.foldl_cons, List.map_cons, List.sum_cons]
    rw [foldl_add_map g xs (a + g x)]
    omega

/-- Generalised shape of allocator pass 1: the fold accumulates the slack
of the fitting lengths and appends the overflowing lengths. -/
theorem passOne_go (bpf : Nat) :
    ∀ (lens : List Nat) (a : Nat) (b : List Nat),
      lens.foldl
        (fun acc l =>
          if l ≤ bpf then (acc.1 + (bpf - l), acc.2)
          else (acc.1, acc.2 ++ [l]))
        (a, b)
      = (a + ((lens.filter (fun l => l ≤ bpf)).map (fun l => bpf - l)).sum,
         b ++ lens.filter (fun l => bpf < l))
  | [], a, b => by simp
  | l :: lens, a, b => by
    by_cases h : l ≤ bpf
    · have h' : ¬ bpf < l := by omega
      simp only [List.foldl_cons, if_pos h, List.filter_cons]
      rw [passOne_go bpf lens (a + (bpf - l)) b]
      simp [h, h']
      omega
    · have h' : bpf < l := by omega
      simp only [List.foldl_cons, if_neg h, List.filter_cons]
      rw [passOne_go bpf lens a (b ++ [l])]
      simp [h, h']

/-- The slack accumulated by pass 1 is the sum of `baseline - length`
over the lengths that fit within the baseline. -/
theorem passOne_fst (bpf : Nat) (lens : List Nat) :
    (passOne bpf lens).1
      = ((lens.filter (fun l => l ≤ bpf)).map (fun l => bpf - l)).sum := by
  unfold passOne
  rw [passOne_go]
  simp

/-- The overflow list collected by pass 1 is the sublist of lengths
exceeding the baseline, in order. -/
theorem passOne_snd (bpf : Nat) (lens : List Nat) :
    (passOne bpf lens).2 = lens.filter (fun l => bpf < l) := by
  unfold passOne
  rw [passOne_go]
  simp

/-- The overflow filter written through negation of the fitting test. -/
theorem filter_not_le (bpf : Nat) (lens : List Nat) :
    lens.filter (fun l => !(decide (l ≤ bpf))) = lens.filter (fun l => bpf < l) := by
  induction lens with
  | nil => rfl
  | cons l lens ih =>
    by_cases h : l ≤ bpf
    · have h' : ¬ bpf < l := by omega
      simp [List.filter_cons, h, h', ih]
    · have h' : bpf < l := by omega
      simp [List.filter_cons, h, h', ih]

/-- Summing a mapped list splits along any Boolean partition of the list. -/
theorem sum_map_partition (p : Nat → Bool) (g : Nat → Nat) (lens : List Nat) :
    (lens.map g).sum
      = ((lens.filter p).map g).sum
        + ((lens.filter (fun l => !(p l))).map g).sum := by
  induction lens with
  | nil => rfl
  | cons l lens ih =>
    by_cases h : p l = true
    · simp [List.filter_cons, h, ih]
      omega
    · simp [List.filter_cons, h, ih]
      omega

/-- The lengths of the two halves of a Boolean partition add up. -/
theorem length_filter_partition (p : Nat → Bool) (lens : List Nat) :
    (lens.filter p).length + (lens.filter (fun l => !(p l))).length
      = lens.length := by
  induction lens with
  | nil => rfl
  | cons l lens ih =>
    by_cases h : p l = true
    · simp [List.filter_cons, h]
      omega
    · simp [List.filter_cons, h]
      omega

/-- Sums of two mapped functions combine into the sum of their pointwise sum. -/
theorem sum_map_add {α : Type} (f g : α → Nat) (lens : List α) :
    (lens.map f).sum + (lens.map g).sum
      = (lens.map (fun l => f l + g l)).sum := by
  induction lens with
  | nil => rfl
  | cons l lens ih =>
    simp only [List.map_cons, List.sum_cons]
    omega

/-- Summing a constant over a list multiplies it by the length. -/
theorem sum_map_const (c : Nat) (lens : List Nat) :
    (lens.map (fun _ => c)).sum = lens.length * c := by
  induction lens with
  | nil => simp
  | cons l lens ih =>
    simp only [List.map_cons, List.sum_cons, List.length_cons, ih]
    ring

/-- The pass-1 slack is monotone in the baseline. -/
theorem slackSum_mono {bpf1 bpf2 : Nat} (h : bpf1 ≤ bpf2) (lens : List Nat) :
    ((lens.filter (fun l => l ≤ bpf1)).map (fun l => bpf1 - l)).sum
      ≤ ((lens.filter (fun l => l ≤ bpf2)).map (fun l => bpf2 - l)).sum := by
  induction lens with
  | nil => simp
  | cons l lens ih =>
    by_cases h1 : l ≤ bpf1
    · have h2 : l ≤ bpf2 := by omega
      simp only [List.filter_cons]
      simp [h1, h2]
      omega
    · by_cases h2 : l ≤ bpf2
      · simp only [List.filter_cons]
        simp [h1, h2]
        omega
      · simp only [List.filter_cons]
        simp [h1, h2]
        omega

/-- The number of overflowing lengths is antitone in the baseline. -/
theorem ovflen_anti {bpf1 bpf2 : Nat} (h : bpf1 ≤ bpf2) (lens : List Nat) :
    (lens.filter (fun l => bpf2 < l)).length
      ≤ (lens.filter (fun l => bpf1 < l)).length := by
  induction lens with
  | nil => simp
  | cons l lens ih =>
    by_cases h2 : bpf2 < l
    · have h1 : bpf1 < l := by omega
      simp [List.filter_cons, h1, h2]
      omega
    · by_cases h1 : bpf1 < l
      · simp [List.filter_cons, h1, h2]
        omega
      · simp [List.filter_cons, h1, h2]
        exact ih

/-- A member exceeding the baseline keeps the overflow list nonempty. -/
theorem ovflen_pos {bpf l : Nat} {lens : List Nat} (hl : l ∈ lens)
    (h : bpf < l) : 0 < (lens.filter (fun l => bpf < l)).length := by
  have hmem : l ∈ lens.filter (fun l => bpf < l) :=
    List.mem_filter.mpr ⟨hl, by simpa using h⟩
  exact List.length_pos.mpr (List.ne_nil_of_mem hmem)

/-- The per-file extra budget is monotone in the baseline, as long as
some length still overflows the larger baseline. -/
theorem extraOf_mono {bpf1 bpf2 : Nat} (hb : bpf1 ≤ bpf2) (lens : List Nat)
    (hk2 : 0 < (lens.filter (fun l => bpf2 < l)).length) :
    extraOf bpf1 lens ≤ extraOf bpf2 lens := by
  unfold extraOf
  rw [passOne_fst, passOne_snd, passOne_fst, passOne_snd]
  by_cases h1 : 0 < ((lens.filter (fun l => l ≤ bpf1)).map (fun l => bpf1 - l)).sum
      ∧ 0 < (lens.filter (fun l => bpf1 < l)).length
  · have hs : ((lens.filter (fun l => l ≤ bpf1)).map (fun l => bpf1 - l)).sum
        ≤ ((lens.filter (fun l => l ≤ bpf2)).map (fun l => bpf2 - l)).sum :=
      slackSum_mono hb lens
    have h2 : 0 < ((lens.filter (fun l => l ≤ bpf2)).map (fun l => bpf2 - l)).sum
        ∧ 0 < (lens.filter (fun l => bpf2 < l)).length := ⟨by omega, hk2⟩
    rw [if_pos h1, if_pos h2]
    calc ((lens.filter (fun l => l ≤ bpf1)).map (fun l => bpf1 - l)).sum
          / (lens.filter (fun l => bpf1 < l)).length
        ≤ ((lens.filter (fun l => l ≤ bpf2)).map (fun l => bpf2 - l)).sum
          / (lens.filter (fun l => bpf1 < l)).length :=
        Nat.div_le_div_right hs
      _ ≤ ((lens.filter (fun l => l ≤ bpf2)).map (fun l => bpf2 - l)).sum
          / (lens.filter (fun l => bpf2 < l)).length :=
        Nat.div_le_div_left (ovflen_anti hb lens) hk2
  · rw [if_neg h1]
    exact Nat.zero_le _

/-- The number of characters of one file's diff kept in the output: all
of them when the file fits the baseline, else the allocation capped by
the diff length. -/
def includedLen (bpf extra l : Nat) : Nat :=
  if l ≤ bpf then l else min l (bpf + extra)

/-- The body part emitted by `renderFile` has exactly `includedLen` many
characters. -/
theorem renderFile_body_length (bpf extra : Nat) (fd : Str × Str) :
    ((renderFile bpf extra fd).headD []).length
      = includedLen bpf extra fd.2.length := by
  unfold renderFile includedLen
  by_cases h1 : bpf < fd.2.length ∧ bpf + extra ≠ 0
  · rw [if_pos h1]
    have h2 : ¬ fd.2.length ≤ bpf := by omega
    simp [h2, List.length_take, Nat.min_comm]
  · rw [if_neg h1]
    by_cases h2 : bpf < fd.2.length
    · obtain ⟨hb0, he0⟩ : bpf = 0 ∧ extra = 0 := by
        rcases Decidable.not_and_iff_or_not.mp h1 with h | h
        · exact absurd h2 h
        · constructor <;> omega
      subst hb0
      subst he0
      have h4 : ¬ fd.2.length ≤ 0 := by omega
      simp [h2, h4]
    · have h4 : fd.2.length ≤ bpf := by omega
      simp [h2, h4]

/-- The media block is the header, one marker line per media file in
order, and a blank separator. -/
theorem buildMediaParts_eq (ms : List Str) :
    buildMediaParts ms
      = if ms ≠ [] then mediaHeaderLine :: ms.map mediaMark ++ [([] : Str)]
        else [] := by
  unfold buildMediaParts
  rw [foldl_push_map]
  by_cases h : ms = []
  · simp [h]
  · have hl : 0 < ms.length := List.length_pos.mpr h
    simp [h, hl]

/-- The code section of the parts list is one rendered block per code
file, in order, after the initial (media) parts. -/
theorem buildCodeParts_eq (bpf extra : Nat) (fds : List (Str × Str))
    (init : List Str) :
    buildCodeParts bpf extra fds init
      = init ++ (fds.map (renderFile bpf extra)).flatten := by
  unfold buildCodeParts
  rw [foldl_append_flat]

/-- A line that starts with a plus sign cannot start with a minus sign,
so the else-if in `countDiffLines` never hides a removed line behind an
added one. -/
theorem plus_not_minus (line : Str) (h : ['+'].isPrefixOf line = true) :
    ['-'].isPrefixOf line = false := by
  cases line with
  | nil => simp [List.isPrefixOf] at h
  | cons c t =>
    have hc : ('+' == c) = true := by
      have h' := h
      simp only [List.isPrefixOf] at h'
      exact (Bool.and_eq_true _ _ ▸ h').1
    have hc' : c = '+' := (eq_of_beq hc).symm
    simp only [List.isPrefixOf, hc']
    decide

theorem countFold_go :
    ∀ (ls : List Str) (a r : Nat),
      ls.foldl
        (fun acc line =>
          if ['+'].isPrefixOf line && !(['+', '+', '+'].isPrefixOf line) then
            (acc.1 + 1, acc.2)
          else if ['-'].isPrefixOf line && !(['-', '-', '-'].isPrefixOf line) then
            (acc.1, acc.2 + 1)
          else acc)
        (a, r)
      = (a + ls.countP
            (fun line => ['+'].isPrefixOf line && !(['+', '+', '+'].isPrefixOf line)),
         r + ls.countP
            (fun line => ['-'].isPrefixOf line && !(['-', '-', '-'].isPrefixOf line)))
  | [], a, r => by simp
  | line :: ls, a, r => by
    by_cases hA : (['+'].isPrefixOf line && !(['+', '+', '+'].isPrefixOf line)) = true
    · have hplus : ['+'].isPrefixOf line = true := (Bool.and_eq_true _ _ ▸ hA).1
      have hR : (['-'].isPrefixOf line && !(['-', '-', '-'].isPrefixOf line)) = false := by
        simp [plus_not_minus line hplus]
      rw [List.foldl_cons, if_pos hA, countFold_go ls (a + 1) r]
      simp [List.countP_cons, hA, hR]
      omega
    · by_cases hR : (['-'].isPrefixOf line && !(['-', '-', '-'].isPrefixOf line)) = true
      · rw [List.foldl_cons, if_neg hA, if_pos hR, countFold_go ls a (r + 1)]
        simp [List.countP_cons, hA, hR]
        omega
      · rw [List.foldl_cons, if_neg hA, if_neg hR, countFold_go ls a r]
        simp [List.countP_cons, hA, hR]

/-- `countDiffLines` counts exactly the lines starting with `+` but not
`+++` (added) and the lines starting with `-` but not `---` (removed). -/
theorem countDiffLines_eq (diff : Str) :
    countDiffLines diff
      = ((splitLines diff).countP
            (fun line => ['+'].isPrefixOf line && !(['+', '+', '+'].isPrefixOf line)),
         (splitLines diff).countP
            (fun line => ['-'].isPrefixOf line && !(['-', '-', '-'].isPrefixOf line))) := by
  unfold countDiffLines
  rw [countFold_go]
  simp

/-- The reported `totalLinesChanged` of any run is the sum, over the code
files in staged order, of the added plus removed line counts of the full
(untruncated) diff of each file. -/
theorem totalLines_eq (files : List Str) (diffOf : Str → Str) (budget : Nat) :
    (smartStagedDiff files diffOf budget).totalLinesChanged
      = ((codeFilesOf files).map
          (fun f => (countDiffLines (diffOf f)).1 + (countDiffLines (diffOf f)).2)).sum := by
  unfold smartStagedDiff
  by_cases h0 : files.length = 0
  · have : files = [] := List.length_eq_zero.mp h0
    subst this
    simp [codeFilesOf]
  · rw [if_neg h0]
    by_cases hc : (codeFilesOf files).length = 0
    · have : codeFilesOf files = [] := List.length_eq_zero.mp hc
      simp [hc, this]
    · simp only [hc, if_neg, reduceIte]
      rw [foldl_add_map]
      rw [Nat.zero_add, List.map_map]
      rfl

/-! ### Concrete fixtures used by the witness theorems -/

/-- A two-code-file staged set used as concrete input. -/
def filesW : List Str := [chars "a.txt", chars "b.txt"]

/-- Concrete diff contents: 10 characters for `a.txt`, 51 for `b.txt`. -/
def dW : Str → Str := fun f =>
  if f = chars "a.txt" then List.replicate 10 'x' else List.replicate 51 'y'

/-- A query environment in which the staged queries fail and the HEAD
file-list query succeeds. -/
def envW : GitEnv :=
  ⟨Except.error (), Except.ok (chars "a.txt\nb.txt\n"),
   fun _ => Except.error (), fun _ => Except.error ()⟩

/-- A query environment in which every query fails. -/
def envE : GitEnv :=
  ⟨Except.error (), Except.error (),
   fun _ => Except.error (), fun _ => Except.error ()⟩

/-! ### The claims -/

/-- C1: with a non-empty code-file list and a positive total budget, the
baseline is `floor(budget / codeFileCount)`; pass 1 accumulates as slack
the sum of `baseline - length` over the files whose length fits the
baseline and collects exactly the overflowing lengths; and pass 2 gives
every overflowing file the allocation `baseline + floor(slack / overflowCount)`
when there is slack and at least one overflowing file, else exactly the
baseline. -/
theorem alloc_two_pass_spec (files : List Str) (diffOf : Str → Str)
    (budget : Nat) (hne : codeFilesOf files ≠ []) (hb : 0 < budget) :
    bpfOf files budget = budget / (codeFilesOf files).length
    ∧ (passOne (bpfOf files budget) (lensOf files diffOf)).1
        = (((lensOf files diffOf).filter (fun l => l ≤ bpfOf files budget)).map
            (fun l => bpfOf files budget - l)).sum
    ∧ (passOne (bpfOf files budget) (lensOf files diffOf)).2
        = (lensOf files diffOf).filter (fun l => bpfOf files budget < l)
    ∧ ((0 < (passOne (bpfOf files budget) (lensOf files diffOf)).1
          ∧ 0 < (passOne (bpfOf files budget) (lensOf files diffOf)).2.length) →
        bpfOf files budget + extraFor files diffOf budget
          = bpfOf files budget
            + (passOne (bpfOf files budget) (lensOf files diffOf)).1
              / (passOne (bpfOf files budget) (lensOf files diffOf)).2.length)
    ∧ (¬ (0 < (passOne (bpfOf files budget) (lensOf files diffOf)).1
          ∧ 0 < (passOne (bpfOf files budget) (lensOf files diffOf)).2.length) →
        bpfOf files budget + extraFor files diffOf budget = bpfOf files budget) := by
  refine ⟨rfl, passOne_fst _ _, passOne_snd _ _, ?_, ?_⟩
  · intro h
    unfold extraFor extraOf
    rw [if_pos h]
  · intro h
    unfold extraFor extraOf
    rw [if_neg h]
    omega

/-- Witness for C1 on the concrete two-file run with budget 100
(baseline 50, slack 40, one overflowing file). -/
theorem alloc_two_pass_spec_witness :
    (passOne (bpfOf filesW 100) (lensOf filesW dW)).2
      = (lensOf filesW dW).filter (fun l => bpfOf filesW 100 < l)
    ∧ bpfOf filesW 100 + extraFor filesW dW 100
        = bpfOf filesW 100
          + (passOne (bpfOf filesW 100) (lensOf filesW dW)).1
            / (passOne (bpfOf filesW 100) (lensOf filesW dW)).2.length :=
  ⟨(alloc_two_pass_spec filesW dW 100 (by decide) (by decide)).2.2.1,
   (alloc_two_pass_spec filesW dW 100 (by decide) (by decide)).2.2.2.1 (by decide)⟩

/-- C2: for every overflowing file of a positive-budget run, the
allocation is at least the baseline, and the rendered (truncated) body
has exactly `min(originalLength, allocatedBudget)` characters. -/
theorem budget_respect (files : List Str) (diffOf : Str → Str) (budget : Nat)
    (hb : 0 < budget) :
    ∀ f ∈ codeFilesOf files, bpfOf files budget < (diffOf f).length →
      bpfOf files budget ≤ bpfOf files budget + extraFor files diffOf budget
      ∧ (renderedBody files diffOf budget f).length
          = min (diffOf f).length
              (bpfOf files budget + extraFor files diffOf budget) := by
  intro f hf hov
  refine ⟨Nat.le_add_right _ _, ?_⟩
  unfold renderedBody
  rw [renderFile_body_length]
  unfold includedLen
  dsimp only
  rw [if_neg (by omega)]

/-- Witness for C2 on the concrete overflowing file `b.txt`. -/
theorem budget_respect_witness :
    bpfOf filesW 100 ≤ bpfOf filesW 100 + extraFor filesW dW 100
    ∧ (renderedBody filesW dW 100 (chars "b.txt")).length
        = min (dW (chars "b.txt")).length
            (bpfOf filesW 100 + extraFor filesW dW 100) :=
  budget_respect filesW dW 100 (by decide) (chars "b.txt") (by decide) (by decide)

/-- C3: when the overflow set of a run is non-empty, the total allocation
granted above the baseline does not exceed the slack, and when there is
slack the unused remainder is strictly smaller than the overflow count. -/
theorem slack_conservation (files : List Str) (diffOf : Str → Str)
    (budget : Nat)
    (hovf : (passOne (bpfOf files budget) (lensOf files diffOf)).2 ≠ []) :
    ((passOne (bpfOf files budget) (lensOf files diffOf)).2.map
        (fun _ => (bpfOf files budget + extraFor files diffOf budget)
          - bpfOf files budget)).sum
      ≤ (passOne (bpfOf files budget) (lensOf files diffOf)).1
    ∧ (0 < (passOne (bpfOf files budget) (lensOf files diffOf)).1 →
        (passOne (bpfOf files budget) (lensOf files diffOf)).1
          - ((passOne (bpfOf files budget) (lensOf files diffOf)).2.map
              (fun _ => (bpfOf files budget + extraFor files diffOf budget)
                - bpfOf files budget)).sum
          < (passOne (bpfOf files budget) (lensOf files diffOf)).2.length) := by
  have hsimp : (bpfOf files budget + extraFor files diffOf budget)
      - bpfOf files budget = extraFor files diffOf budget := by omega
  have hk : 0 < (passOne (bpfOf files budget) (lensOf files diffOf)).2.length :=
    List.length_pos.mpr hovf
  rw [hsimp, sum_map_const]
  unfold extraFor extraOf
  by_cases hcond : 0 < (passOne (bpfOf files budget) (lensOf files diffOf)).1
      ∧ 0 < (passOne (bpfOf files budget) (lensOf files diffOf)).2.length
  · rw [if_pos hcond]
    set s := (passOne (bpfOf files budget) (lensOf files diffOf)).1 with hs
    set k := (passOne (bpfOf files budget) (lensOf files diffOf)).2.length with hkdef
    constructor
    · calc k * (s / k) = s / k * k := Nat.mul_comm _ _
        _ ≤ s := Nat.div_mul_le_self s k
    · intro hspos
      set q := s / k with hq
      have hmd : s % k + k * q = s := by
        rw [hq]
        exact Nat.mod_add_div s k
      have hlt : s % k < k := Nat.mod_lt _ hk
      set m := s % k with hm
      have h2 : s - k * q = m := by
        rw [← hmd, Nat.add_sub_cancel]
      rw [h2]
      exact hlt
  · rw [if_neg hcond]
    have hs0 : (passOne (bpfOf files budget) (lensOf files diffOf)).1 = 0 := by
      rcases Decidable.not_and_iff_or_not.mp hcond with h | h
      · omega
      · exact absurd hk h
    constructor
    · simp [hs0]
    · intro hspos
      omega

/-- Witness for C3 on the concrete run (slack 40, one overflowing file). -/
theorem slack_conservation_witness :
    ((passOne (bpfOf filesW 100) (lensOf filesW dW)).2.map
        (fun _ => (bpfOf filesW 100 + extraFor filesW dW 100)
          - bpfOf filesW 100)).sum
      ≤ (passOne (bpfOf filesW 100) (lensOf filesW dW)).1
    ∧ (passOne (bpfOf filesW 100) (lensOf filesW dW)).1
        - ((passOne (bpfOf filesW 100) (lensOf filesW dW)).2.map
            (fun _ => (bpfOf filesW 100 + extraFor filesW dW 100)
              - bpfOf filesW 100)).sum
        < (passOne (bpfOf filesW 100) (lensOf filesW dW)).2.length :=
  ⟨(slack_conservation filesW dW 100 (by decide)).1,
   (slack_conservation filesW dW 100 (by decide)).2 (by decide)⟩

/-- C4: with the staged files and diff contents fixed, raising the total
budget never shrinks the number of characters of any code file's diff
that make it into the output. -/
theorem included_monotone (files : List Str) (diffOf : Str → Str)
    (b1 b2 : Nat) (h1 : 0 < b1) (hle : b1 ≤ b2) :
    ∀ f ∈ codeFilesOf files,
      (renderedBody files diffOf b1 f).length
        ≤ (renderedBody files diffOf b2 f).length := by
  intro f hf
  have e1 : (renderedBody files diffOf b1 f).length
      = includedLen (bpfOf files b1) (extraFor files diffOf b1) (diffOf f).length := by
    unfold renderedBody
    rw [renderFile_body_length]
  have e2 : (renderedBody files diffOf b2 f).length
      = includedLen (bpfOf files b2) (extraFor files diffOf b2) (diffOf f).length := by
    unfold renderedBody
    rw [renderFile_body_length]
  rw [e1, e2]
  have hbpf : bpfOf files b1 ≤ bpfOf files b2 := Nat.div_le_div_right hle
  unfold includedLen
  by_cases hA : (diffOf f).length ≤ bpfOf files b1
  · have hB : (diffOf f).length ≤ bpfOf files b2 := le_trans hA hbpf
    rw [if_pos hA, if_pos hB]
  · rw [if_neg hA]
    by_cases hB : (diffOf f).length ≤ bpfOf files b2
    · rw [if_pos hB]
      exact Nat.min_le_left _ _
    · rw [if_neg hB]
      have hlmem : (diffOf f).length ∈ lensOf files diffOf :=
        List.mem_map_of_mem _ hf
      have hk2 : 0 < ((lensOf files diffOf).filter
          (fun l => bpfOf files b2 < l)).length :=
        ovflen_pos hlmem (by omega)
      have hext : extraFor files diffOf b1 ≤ extraFor files diffOf b2 :=
        extraOf_mono hbpf _ hk2
      exact min_le_min (le_refl _) (Nat.add_le_add hbpf hext)

/-- Witness for C4 on the concrete run, budgets 100 and 200. -/
theorem included_monotone_witness :
    (renderedBody filesW dW 100 (chars "b.txt")).length
      ≤ (renderedBody filesW dW 200 (chars "b.txt")).length :=
  included_monotone filesW dW 100 200 (by decide) (by decide)
    (chars "b.txt") (by decide)

/-- C5: the reported `totalLinesChanged` is the sum over code files of
the added lines (starting with `+` but not `+++`) plus the removed lines
(starting with `-` but not `---`) of each full diff, and it does not
depend on the budget, so truncation never changes it. -/
theorem total_lines_invariant (files : List Str) (diffOf : Str → Str)
    (b1 b2 : Nat) :
    (smartStagedDiff files diffOf b1).totalLinesChanged
      = ((codeFilesOf files).map (fun f =>
          (splitLines (diffOf f)).countP
            (fun line => ['+'].isPrefixOf line && !(['+', '+', '+'].isPrefixOf line))
          + (splitLines (diffOf f)).countP
            (fun line => ['-'].isPrefixOf line && !(['-', '-', '-'].isPrefixOf line)))).sum
    ∧ (smartStagedDiff files diffOf b1).totalLinesChanged
        = (smartStagedDiff files diffOf b2).totalLinesChanged := by
  constructor
  · rw [totalLines_eq]
    congr 1
    apply List.map_congr_left
    intro f hf
    rw [countDiffLines_eq]
  · rw [totalLines_eq, totalLines_eq]

/-- C6: the parts of the assembled output are exactly the media block
(header, one name line per media file in staged order, blank separator)
when media files exist, followed by exactly one rendered block per code
file in staged order; and each code file's body part is a prefix of that
file's own diff. -/
theorem coverage (files : List Str) (diffOf : Str → Str) (budget : Nat) :
    smartDiffParts files diffOf budget
      = (if mediaFilesOf files ≠ [] then
          mediaHeaderLine :: (mediaFilesOf files).map mediaMark ++ [([] : Str)]
         else [])
        ++ ((codeFilesOf files).map
            (fun f => renderFile (bpfOf files budget)
              (extraFor files diffOf budget) (f, diffOf f))).flatten
    ∧ ∀ f ∈ codeFilesOf files,
        ∃ k, renderedBody files diffOf budget f = (diffOf f).take k := by
  constructor
  · unfold smartDiffParts
    rw [buildCodeParts_eq, buildMediaParts_eq, List.map_map]
    rfl
  · intro f hf
    unfold renderedBody renderFile
    by_cases hA : bpfOf files budget < (f, diffOf f).2.length
        ∧ bpfOf files budget + extraFor files diffOf budget ≠ 0
    · rw [if_pos hA]
      exact ⟨bpfOf files budget + extraFor files diffOf budget, rfl⟩
    · rw [if_neg hA]
      by_cases hB : bpfOf files budget < (f, diffOf f).2.length
      · rw [if_pos hB]
        exact ⟨bpfOf files budget, rfl⟩
      · rw [if_neg hB]
        exact ⟨(diffOf f).length, (List.take_length _).symm⟩

/-- Witness for C6: the body part of `b.txt` in the concrete run is a
prefix of its diff. -/
theorem coverage_witness :
    ∃ k, renderedBody filesW dW 100 (chars "b.txt")
      = (dW (chars "b.txt")).take k :=
  (coverage filesW dW 100).2 (chars "b.txt") (by decide)

/-- C7: an empty staged-file set is not an error; for any positive budget
the run returns exactly empty diff text, zero changed lines and zero
files. -/
theorem empty_staged_result (env : GitEnv) (budget : Nat) (hb : 0 < budget)
    (h : getStagedFileList env = []) :
    getSmartStagedDiff env budget = ⟨[], 0, 0⟩ := by
  unfold getSmartStagedDiff
  rw [h]
  rfl

/-- Witness for C7 on the all-failing query environment. -/
theorem empty_staged_result_witness :
    getSmartStagedDiff envE 1 = ⟨[], 0, 0⟩ :=
  empty_staged_result envE 1 (by decide) rfl

/-- C8: the file-list collector answers from the staged query, else from
the fallback query, else with the empty list, and the per-file diff
collector answers from the staged diff, else from the fallback diff, else
with empty text; both are total functions, so no query fault ever reaches
the caller. -/
theorem collector_fallback (env : GitEnv) :
    (∀ out, env.stagedList = Except.ok out →
      getStagedFileList env = parseFileList out)
    ∧ (∀ out, env.stagedList = Except.error () → env.headList = Except.ok out →
        getStagedFileList env = parseFileList out)
    ∧ (env.stagedList = Except.error () → env.headList = Except.error () →
        getStagedFileList env = [])
    ∧ (∀ p out, env.stagedDiff p = Except.ok out → getFileDiff env p = out)
    ∧ (∀ p out, env.stagedDiff p = Except.error () →
        env.headDiff p = Except.ok out → getFileDiff env p = out)
    ∧ (∀ p, env.stagedDiff p = Except.error () →
        env.headDiff p = Except.error () → getFileDiff env p = []) := by
  refine ⟨?_, ?_, ?_, ?_, ?_, ?_⟩
  · intro out h
    unfold getStagedFileList
    rw [h]
  · intro out h1 h2
    unfold getStagedFileList
    rw [h1, h2]
  · intro h1 h2
    unfold getStagedFileList
    rw [h1, h2]
  · intro p out h
    unfold getFileDiff
    rw [h]
  · intro p out h1 h2
    unfold getFileDiff
    rw [h1, h2]
  · intro p h1 h2
    unfold getFileDiff
    rw [h1, h2]

/-- Witness for C8: the fallback file-list query answers, and a doubly
failing diff query degrades to empty text. -/
theorem collector_fallback_witness :
    getStagedFileList envW = parseFileList (chars "a.txt\nb.txt\n")
    ∧ getFileDiff envW (chars "a.txt") = [] :=
  ⟨(collector_fallback envW).2.1 _ rfl rfl,
   (collector_fallback envW).2.2.2.2.2 _ rfl rfl⟩

/-- The total extra budget handed to the overflow set never exceeds the
slack gathered in pass 1. -/
theorem extra_mul_le (bpf : Nat) (lens : List Nat) :
    extraOf bpf lens * (lens.filter (fun l => bpf < l)).length
      ≤ ((lens.filter (fun l => l ≤ bpf)).map (fun l => bpf - l)).sum := by
  unfold extraOf
  rw [passOne_fst, passOne_snd]
  by_cases hcond : 0 < ((lens.filter (fun l => l ≤ bpf)).map (fun l => bpf - l)).sum
      ∧ 0 < (lens.filter (fun l => bpf < l)).length
  · rw [if_pos hcond]
    exact Nat.div_mul_le_self _ _
  · rw [if_neg hcond]
    simp

/-- C9: for every staged set, diff contents and positive budget, the
total number of diff-body characters placed in the output over all code
files is at most the budget. -/
theorem budget_bound (files : List Str) (diffOf : Str → Str) (budget : Nat)
    (hb : 0 < budget) :
    ((codeFilesOf files).map
      (fun f => (renderedBody files diffOf budget f).length)).sum ≤ budget := by
  have hfun : (fun f => (renderedBody files diffOf budget f).length)
      = fun f => includedLen (bpfOf files budget)
          (extraFor files diffOf budget) (diffOf f).length := by
    funext f
    unfold renderedBody
    rw [renderFile_body_length]
  rw [hfun]
  have hmm : (codeFilesOf files).map
      (fun f => includedLen (bpfOf files budget)
        (extraFor files diffOf budget) (diffOf f).length)
      = (lensOf files diffOf).map
          (includedLen (bpfOf files budget) (extraFor files diffOf budget)) := by
    unfold lensOf
    rw [List.map_map]
    rfl
  rw [hmm]
  set bpf := bpfOf files budget with hbpf
  set e := extraFor files diffOf budget with he
  set lens := lensOf files diffOf with hlensdef
  set uncS := ((lens.filter (fun l => l ≤ bpf)).map (fun l => l)).sum with huncS
  set slackS := ((lens.filter (fun l => l ≤ bpf)).map (fun l => bpf - l)).sum with hslackS
  set u := (lens.filter (fun l => l ≤ bpf)).length with hu
  set k := (lens.filter (fun l => bpf < l)).length with hk
  have hsplit := sum_map_partition (fun l => decide (l ≤ bpf))
    (includedLen bpf e) lens
  have hflip : lens.filter (fun l => !(decide (l ≤ bpf)))
      = lens.filter (fun l => bpf < l) := filter_not_le bpf lens
  rw [hflip] at hsplit
  have hunc_eq : ((lens.filter (fun l => l ≤ bpf)).map (includedLen bpf e)).sum
      = uncS := by
    rw [huncS]
    congr 1
    apply List.map_congr_left
    intro l hl
    have hle : l ≤ bpf := by
      have := (List.mem_filter.mp hl).2
      simpa using this
    unfold includedLen
    rw [if_pos hle]
  have hovf_le : ((lens.filter (fun l => bpf < l)).map (includedLen bpf e)).sum
      ≤ ((lens.filter (fun l => bpf < l)).map (fun _ => bpf + e)).sum := by
    apply List.sum_le_sum
    intro l hl
    have hlt : bpf < l := by
      have := (List.mem_filter.mp hl).2
      simpa using this
    unfold includedLen
    rw [if_neg (by omega)]
    exact Nat.min_le_right _ _
  have hovf_const : ((lens.filter (fun l => bpf < l)).map (fun _ => bpf + e)).sum
      = k * (bpf + e) := by
    rw [sum_map_const, hk]
  have hke : k * e ≤ slackS := by
    have h1 := extra_mul_le bpf lens
    rw [← hslackS, ← hk] at h1
    calc k * e = e * k := Nat.mul_comm _ _
      _ ≤ slackS := by
        rw [he]
        unfold extraFor
        rw [← hlensdef, ← hbpf]
        exact h1
  have husum : uncS + slackS = u * bpf := by
    rw [huncS, hslackS, sum_map_add]
    have : (lens.filter (fun l => l ≤ bpf)).map (fun l => l + (bpf - l))
        = (lens.filter (fun l => l ≤ bpf)).map (fun _ => bpf) := by
      apply List.map_congr_left
      intro l hl
      have hle : l ≤ bpf := by
        have := (List.mem_filter.mp hl).2
        simpa using this
      omega
    rw [this, sum_map_const, hu]
  have hlenpart : u + k = lens.length := by
    have h1 := length_filter_partition (fun l => decide (l ≤ bpf)) lens
    rw [hflip] at h1
    rw [hu, hk]
    exact h1
  have hlenlen : lens.length = (codeFilesOf files).length := by
    rw [hlensdef]
    unfold lensOf
    exact List.length_map _ _
  calc (lens.map (includedLen bpf e)).sum
      = uncS + ((lens.filter (fun l => bpf < l)).map (includedLen bpf e)).sum := by
        rw [hsplit, hunc_eq]
    _ ≤ uncS + k * (bpf + e) := by
        have := le_trans hovf_le (le_of_eq hovf_const)
        omega
    _ = uncS + (k * bpf + k * e) := by rw [Nat.mul_add]
    _ ≤ uncS + (k * bpf + slackS) := by omega
    _ = (uncS + slackS) + k * bpf := by omega
    _ = u * bpf + k * bpf := by rw [husum]
    _ = (u + k) * bpf := by rw [Nat.add_mul]
    _ = (codeFilesOf files).length * bpf := by rw [hlenpart, hlenlen]
    _ = bpf * (codeFilesOf files).length := Nat.mul_comm _ _
    _ ≤ budget := by
        rw [hbpf]
        unfold bpfOf
        exact Nat.div_mul_le_self _ _

/-- Witness for C9 on the concrete run with budget 100. -/
theorem budget_bound_witness :
    ((codeFilesOf filesW).map
      (fun f => (renderedBody filesW dW 100 f).length)).sum ≤ 100 :=
  budget_bound filesW dW 100 (by decide)

/-- C10: on the concrete run (budget 100, diffs of 10 and 51 characters)
the overflowing file `b.txt` receives allocation 90, which exceeds its
diff length 51; its body is rendered in full, yet the output still carries
a truncation marker whose omitted-character count `51 - 90 = -39` is
negative. -/
theorem negative_omitted :
    (dW (chars "b.txt")).length < bpfOf filesW 100 + extraFor filesW dW 100
    ∧ renderedBody filesW dW 100 (chars "b.txt") = dW (chars "b.txt")
    ∧ smartDiffParts filesW dW 100
        = [List.replicate 10 'x', List.replicate 51 'y',
           chars "\n... [b.txt diff truncated, -39 chars omitted]"]
    ∧ ((dW (chars "b.txt")).length : Int)
        - ((bpfOf filesW 100 + extraFor filesW dW 100 : Nat) : Int) = -39 :=
  ⟨by decide, by decide, by decide, by decide⟩
